import Mathlib

set_option maxRecDepth 1000000
set_option maxHeartbeats 4000000

/-!
# Verification of the `exchange` package (ECDH-1PU key agreement)

Shallow embedding of the Go package `exchange` (file `api.go` and the
unnamed core file holding `ecdh1PuExchange`).  Bytes are modelled as `ℕ`
(values < 256), byte slices as `List ℕ`, `uint32` as `ℕ` taken mod `2^32`
where the Go code truncates, `*big.Int` coordinates as `ℕ`, nilable
pointers and function fields as `Option`, and fallible functions return
`Except String` mirroring the Go `([]byte, error)` pairs together with
their exact error messages.
-/

namespace Exchange

/-! ## Byte-level helpers -/

/-- Big-endian 4-byte encoding of `n % 2^32`: the embedding of Go's
`binary.BigEndian.PutUint32` applied to `uint32(value)`. -/
def toBE4 (n : ℕ) : List ℕ :=
  [n % 2 ^ 32 / 2 ^ 24, n % 2 ^ 24 / 2 ^ 16, n % 2 ^ 16 / 2 ^ 8, n % 2 ^ 8]

/-- Embedding of the Go helper `uint32ToBytes` (source lines 105-110). -/
def uint32ToBytes (value : ℕ) : List ℕ :=
  toBE4 value

/-- Embedding of the Go helper `lengthPrefixedArray` (source lines 95-103):
empty input contributes zero bytes, otherwise a 4-byte big-endian length
prefix (the length truncated to `uint32` as Go's conversion does) followed
by the bytes verbatim. -/
def lengthPrefixedArray (value : List ℕ) : List ℕ :=
  if value.length = 0 then []
  else toBE4 value.length ++ value

/-- The fixed-info construction performed inline by `SecretKey`
(source lines 49-54): `AlgorithmID || PartyUInfo || PartyVInfo || KeyLength`. -/
def buildFixedInfo (algorithmID partyInfo theirAgreementInfo : List ℕ)
    (dkLenBits : ℕ) : List ℕ :=
  lengthPrefixedArray algorithmID ++ lengthPrefixedArray partyInfo ++
    lengthPrefixedArray theirAgreementInfo ++ uint32ToBytes dkLenBits

/-- Big-endian value of a byte list (the number a byte string represents). -/
def beToNat (l : List ℕ) : ℕ :=
  l.foldl (fun acc b => acc * 256 + b) 0

/-- `big.Int.Bytes()`: the minimal-length big-endian encoding of a natural
number (empty for 0).  Structural recursion on a fuel argument that bounds
the number of digits; `natToBytesBE` instantiates the fuel with `n`
itself, which always suffices. -/
def natToBytesBEAux : ℕ → ℕ → List ℕ
  | 0, _ => []
  | fuel + 1, n =>
      if n = 0 then [] else natToBytesBEAux fuel (n / 256) ++ [n % 256]

/-- `big.Int.Bytes()` on a natural number. -/
def natToBytesBE (n : ℕ) : List ℕ :=
  natToBytesBEAux n n

/-! ## Specification-side definitions (written from the spec's words,
for the refinement claim about the fixed-info encoding) -/

/-- Specification-side field encoding, written from the spec's words: an
empty field contributes zero bytes; otherwise a 4-byte big-endian unsigned
length of the field followed by the field verbatim. -/
def specFieldEncoding (f : List ℕ) : List ℕ :=
  if f = [] then []
  else [f.length / 2 ^ 24 % 256, f.length / 2 ^ 16 % 256,
        f.length / 2 ^ 8 % 256, f.length % 256] ++ f

/-- Specification-side fixed info, written from the spec's words: the
concatenation, in the fixed order algorithmId, localPartyInfo,
remotePartyInfo, dkLenBits, of the three length-prefixed fields and a
final plain (non-length-prefixed, never omitted) 4-byte big-endian
dkLenBits. -/
def specFixedInfo (algorithmId localPartyInfo remotePartyInfo : List ℕ)
    (dkLenBits : ℕ) : List ℕ :=
  specFieldEncoding algorithmId ++ specFieldEncoding localPartyInfo ++
    specFieldEncoding remotePartyInfo ++
    [dkLenBits / 2 ^ 24 % 256, dkLenBits / 2 ^ 16 % 256,
     dkLenBits / 2 ^ 8 % 256, dkLenBits % 256]

/-! ## The NIST SP 800-56A single-step KDF (`nistKdf`) -/

/-- A Go `hash.Hash` factory (`func() hash.Hash`) modelled as a pure
digest function together with its `Size()`.  The Go code calls
`h.Reset()` before each KDF round and then writes the round's message,
so each round digests exactly the freshly written bytes — which the pure
`digest` function captures. -/
structure HashFn where
  size : ℕ
  digest : List ℕ → List ℕ

/-- The `for counter := 1; counter <= reps; counter++` loop of `nistKdf`
(source lines 122-131): each round appends
`Hash(BigEndian32(counter) || sharedSecret || info)` to the accumulator
`dk`.  Structural recursion on the number of remaining rounds. -/
def kdfRounds (h : HashFn) (sharedSecret info : List ℕ) :
    ℕ → ℕ → List ℕ → List ℕ
  | 0, _, dk => dk
  | n + 1, counter, dk =>
      kdfRounds h sharedSecret info n (counter + 1)
        (dk ++ h.digest (uint32ToBytes counter ++ sharedSecret ++ info))

/-- Embedding of `nistKdf` (source lines 112-135).  Go computes
`reps := int(math.Ceil(float64(dkLen) / float64(h.Size())))`; since
`dkLen` is a `uint32` (< `2^53`) and for any digest size ≥ 1 the
quotient is either exactly an integer (then exactly representable) or
farther than a half-ulp from the integers below it, the float64
computation is exact and equals the natural-number ceiling division
`(dkLen + size - 1) / size` used here.  (For `h.Size() = 0` the Go
conversion of an infinite float to `int` is platform-specific; every
claim assumes digest size ≥ 1.)  The final Go reslice `dk[:dkLen]` is
modelled as `List.take dkLen`, with which it coincides whenever
`dkLen ≤ dk.length` — true for any hash whose digests have length
`h.size ≥ 1`. -/
def nistKdf (h : HashFn) (sharedSecret info : List ℕ) (dkLen : ℕ) :
    Except String (List ℕ) :=
  let reps := (dkLen + h.size - 1) / h.size
  if 2 ^ 32 ≤ reps then .error "too many round count for KDF"
  else .ok ((kdfRounds h sharedSecret info reps 1 []).take dkLen)

/-! ## Keys, curves, the shared-secret computation and `SecretKey` -/

/-- A Go `elliptic.Curve` as the code uses it: only `ScalarMult` is ever
called, on the remote point's coordinates and a private scalar's
`D.Bytes()` (whose big-endian integer value is `D`, which is how the
scalar argument is modelled). -/
structure Curve where
  scalarMult : ℕ → ℕ → ℕ → ℕ × ℕ

/-- A Go `*ecdsa.PrivateKey` as the code uses it: its `Curve` and the
secret scalar `D`. -/
structure PrivateKey where
  curve : Curve
  d : ℕ

/-- A Go `*ecdsa.PublicKey` as the code uses it: only `X` and `Y` are
read (the code never reads the public key's own `Curve` field). -/
structure PublicKey where
  x : ℕ
  y : ℕ

/-- The configured exchange value `ecdh1PuExchange` (source lines 11-17).
`Option` marks the nilable pointer field `ourPrivate` and the nilable
function field `h`. -/
structure Ecdh1PuExchange where
  ourPrivate : Option PrivateKey
  algorithmID : List ℕ
  dkLenBits : ℕ
  partyInfo : List ℕ
  h : Option HashFn

/-- Embedding of the constructor `ECDH1PU` (source lines 19-27). -/
def ECDH1PU (staticPrivateKey : Option PrivateKey) (h : Option HashFn)
    (algorithmID : List ℕ) (dkLenBits : ℕ)
    (agreementPartyInfo : List ℕ) : Ecdh1PuExchange :=
  { ourPrivate := staticPrivateKey
    h := h
    algorithmID := algorithmID
    dkLenBits := dkLenBits
    partyInfo := agreementPartyInfo }

/-- Embedding of `computeSharedSecret` (source lines 68-91): after the
three nil checks, `Ze` and `Zs` are the x-coordinates of
`ScalarMult(theirPublic, ephemeral.D)` and
`ScalarMult(theirPublic, static.D)`, and the result is
`Ze.Bytes() || Zs.Bytes()`. -/
def computeSharedSecret (exchange : Ecdh1PuExchange)
    (ourEphemeralPrivateKey : Option PrivateKey)
    (theirPublicKey : Option PublicKey) : Except String (List ℕ) :=
  match exchange.ourPrivate with
  | none => .error "unable to process with nil private key"
  | some ourPrivate =>
    match ourEphemeralPrivateKey with
    | none => .error "unable to process with nil ephemeral private key"
    | some eph =>
      match theirPublicKey with
      | none => .error "unable to process with remote public key"
      | some pub =>
        let Ze := (eph.curve.scalarMult pub.x pub.y eph.d).1
        let Zs := (ourPrivate.curve.scalarMult pub.x pub.y ourPrivate.d).1
        .ok (natToBytesBE Ze ++ natToBytesBE Zs)

/-- Embedding of `SecretKey` (source lines 31-64): argument checks in
source order, then the shared secret, the fixed info, and the KDF call
with output length `dkLenBits >> 3`; a shared-secret error is returned
as-is, a KDF error is wrapped as `"unable to apply kdf: " ++ e`. -/
def SecretKey (exchange : Ecdh1PuExchange)
    (ephemeralPrivateKey : Option PrivateKey)
    (theirPublicKey : Option PublicKey)
    (theirAgreementInfo : List ℕ) : Except String (List ℕ) :=
  match ephemeralPrivateKey with
  | none => .error "ephemeral private key is mandatory"
  | some _ =>
  match theirPublicKey with
  | none => .error "their public key is mandatory"
  | some _ =>
  match exchange.h with
  | none => .error "hash function is mandatory"
  | some hf =>
  match computeSharedSecret exchange ephemeralPrivateKey theirPublicKey with
  | .error e => .error e
  | .ok sharedSecret =>
    let fixedInfo := buildFixedInfo exchange.algorithmID exchange.partyInfo
      theirAgreementInfo exchange.dkLenBits
    match nistKdf hf sharedSecret fixedInfo (exchange.dkLenBits / 2 ^ 3) with
    | .error e => .error ("unable to apply kdf: " ++ e)
    | .ok dk => .ok dk

/-! ## Concrete values used by witnesses -/

/-- A concrete toy hash used by witnesses: one-byte digests, constant
value 7. -/
def toyHash : HashFn where
  size := 1
  digest := fun _ => [7]

/-- A concrete toy curve used by witnesses. -/
def toyCurve : Curve where
  scalarMult := fun x y k => (x + y + k, 0)

/-- A concrete toy private key used by witnesses. -/
def toyPriv : PrivateKey where
  curve := toyCurve
  d := 5

/-- A second concrete toy private key used by witnesses. -/
def toyPriv2 : PrivateKey where
  curve := toyCurve
  d := 9

/-- A concrete toy public key used by witnesses. -/
def toyPub : PublicKey where
  x := 3
  y := 4

/-- A fully configured concrete exchange used by witnesses. -/
def toyExchange : Ecdh1PuExchange :=
  ECDH1PU (some toyPriv) (some toyHash) [65] 16 [66]

/-- A concrete exchange whose static private key is nil. -/
def toyExchangeNoStatic : Ecdh1PuExchange :=
  ECDH1PU none (some toyHash) [65] 16 [66]

/-- A concrete exchange whose hash function is nil. -/
def toyExchangeNoHash : Ecdh1PuExchange :=
  ECDH1PU (some toyPriv) none [65] 16 [66]

/-- A concrete exchange whose configured `dkLenBits` makes the KDF's
round count overflow (`2^35` bits, i.e. `2^32` bytes with a one-byte
digest).  `dkLenBits` of this size cannot arise through the Go API
(`uint32`) but exercises the KDF error path of the model. -/
def toyExchangeHuge : Ecdh1PuExchange :=
  ECDH1PU (some toyPriv) (some toyHash) [65] (2 ^ 35) [66]

/-- A concrete exchange configured with `dkLenBits = 0`. -/
def toyExchangeZero : Ecdh1PuExchange :=
  ECDH1PU (some toyPriv) (some toyHash) [65] 0 [66]

/-! ## SHA-256 (the `crypto/sha256` hash used by the known-answer tests),
modelled bit-for-bit from FIPS 180-4 over byte lists, with 32-bit words
as naturals reduced mod `2^32` -/

/-- 32-bit rotate right (argument below `2^32`). -/
def rotr32 (n x : ℕ) : ℕ := ((x >>> n) ||| (x <<< (32 - n))) % 2 ^ 32

/-- The 64 SHA-256 round constants. -/
def sha256K : List ℕ :=
  [1116352408, 1899447441, 3049323471, 3921009573, 961987163, 1508970993,
   2453635748, 2870763221, 3624381080, 310598401, 607225278, 1426881987,
   1925078388, 2162078206, 2614888103, 3248222580, 3835390401, 4022224774,
   264347078, 604807628, 770255983, 1249150122, 1555081692, 1996064986,
   2554220882, 2821834349, 2952996808, 3210313671, 3336571891, 3584528711,
   113926993, 338241895, 666307205, 773529912, 1294757372, 1396182291,
   1695183700, 1986661051, 2177026350, 2456956037, 2730485921, 2820302411,
   3259730800, 3345764771, 3516065817, 3600352804, 4094571909, 275423344,
   430227734, 506948616, 659060556, 883997877, 958139571, 1322822218,
   1537002063, 1747873779, 1955562222, 2024104815, 2227730452, 2361852424,
   2428436474, 2756734187, 3204031479, 3329325298]

/-- The SHA-256 initial hash state `H0 .. H7`. -/
def sha256InitState : List ℕ :=
  [1779033703, 3144134277, 1013904242, 2773480762, 1359893119,
   2600822924, 528734635, 1541459225]

/-- Group bytes into big-endian 32-bit words. -/
def bytesToWords : List ℕ → List ℕ
  | b0 :: b1 :: b2 :: b3 :: rest =>
      (((b0 * 256 + b1) * 256 + b2) * 256 + b3) :: bytesToWords rest
  | _ => []

/-- Extend the 16 block words to 64 message-schedule words (the fuel
counts the 48 remaining extensions). -/
def sha256Extend : ℕ → List ℕ → List ℕ
  | 0, w => w
  | n + 1, w =>
      let t := w.length
      let w15 := w.getD (t - 15) 0
      let s0 := rotr32 7 w15 ^^^ rotr32 18 w15 ^^^ (w15 >>> 3)
      let w2 := w.getD (t - 2) 0
      let s1 := rotr32 17 w2 ^^^ rotr32 19 w2 ^^^ (w2 >>> 10)
      sha256Extend n
        (w ++ [(w.getD (t - 16) 0 + s0 + w.getD (t - 7) 0 + s1) % 2 ^ 32])

/-- One SHA-256 compression round on the state `[a,b,c,d,e,f,g,h]`;
`kw` is the round constant plus the schedule word. -/
def sha256Round (st : List ℕ) (kw : ℕ) : List ℕ :=
  match st with
  | [a, b, c, d, e, f, g, h] =>
      let S1 := rotr32 6 e ^^^ rotr32 11 e ^^^ rotr32 25 e
      let ch := (e &&& f) ^^^ ((e ^^^ 0xffffffff) &&& g)
      let temp1 := (h + S1 + ch + kw) % 2 ^ 32
      let S0 := rotr32 2 a ^^^ rotr32 13 a ^^^ rotr32 22 a
      let maj := (a &&& b) ^^^ (a &&& c) ^^^ (b &&& c)
      let temp2 := (S0 + maj) % 2 ^ 32
      [(temp1 + temp2) % 2 ^ 32, a, b, c, (d + temp1) % 2 ^ 32, e, f, g]
  | _ => st

/-- Iterate the 64 compression rounds. -/
def sha256Rounds : List ℕ → List ℕ → List ℕ
  | st, [] => st
  | st, kw :: rest => sha256Rounds (sha256Round st kw) rest

/-- Compress one 64-byte block into the running state. -/
def sha256Compress (st block : List ℕ) : List ℕ :=
  let w := sha256Extend 48 (bytesToWords block)
  let kw := List.zipWith (fun a b => (a + b) % 2 ^ 32) sha256K w
  let st2 := sha256Rounds st kw
  List.zipWith (fun a b => (a + b) % 2 ^ 32) st st2

/-- Compress the given number of 64-byte blocks. -/
def sha256Blocks : ℕ → List ℕ → List ℕ → List ℕ
  | 0, _, st => st
  | n + 1, msg, st =>
      sha256Blocks n (msg.drop 64) (sha256Compress st (msg.take 64))

/-- Big-endian 8-byte encoding (for the SHA-256 length field). -/
def toBE8 (n : ℕ) : List ℕ :=
  [n / 2 ^ 56 % 256, n / 2 ^ 48 % 256, n / 2 ^ 40 % 256, n / 2 ^ 32 % 256,
   n / 2 ^ 24 % 256, n / 2 ^ 16 % 256, n / 2 ^ 8 % 256, n % 256]

/-- SHA-256 padding: a `0x80` byte, zeros to 56 mod 64, then the 8-byte
big-endian bit length. -/
def sha256Pad (msg : List ℕ) : List ℕ :=
  msg ++ [0x80] ++ List.replicate ((119 - msg.length % 64) % 64) 0 ++
    toBE8 (8 * msg.length)

/-- Serialize state words back to big-endian bytes. -/
def wordsToBytes : List ℕ → List ℕ
  | [] => []
  | w :: rest =>
      [w / 2 ^ 24 % 256, w / 2 ^ 16 % 256, w / 2 ^ 8 % 256, w % 256] ++
        wordsToBytes rest

/-- SHA-256 of a byte list. -/
def sha256 (msg : List ℕ) : List ℕ :=
  let padded := sha256Pad msg
  wordsToBytes (sha256Blocks (padded.length / 64) padded sha256InitState)

/-- The `sha256.New` hash factory as a `HashFn` (`Size()` is 32). -/
def sha256HashFn : HashFn where
  size := 32
  digest := sha256

/-! ## The NIST P-256 curve (the `crypto/elliptic` P-256 used by the
known-answer tests).  `ScalarMult` is modelled as the mathematical
scalar multiple on the curve's affine points over the prime field,
which is what Go's implementation computes for on-curve inputs. -/

/-- The P-256 field prime `2^256 - 2^224 + 2^192 + 2^96 - 1`. -/
def p256P : ℕ :=
  115792089210356248762697446949407573530086143415290314195533631308867097853951

/-- The P-256 curve coefficient `a = p - 3`. -/
def p256A : ℕ := p256P - 3

/-- Modular exponentiation by repeated squaring; the fuel bounds the
number of halvings of the exponent (300 > 256 suffices below). -/
def powModAux : ℕ → ℕ → ℕ → ℕ → ℕ
  | 0, _, _, m => 1 % m
  | fuel + 1, b, e, m =>
      if e = 0 then 1 % m
      else
        let r := powModAux fuel (b * b % m) (e / 2) m
        if e % 2 = 1 then r * b % m else r

/-- Modular exponentiation for 256-bit operands. -/
def powMod (b e m : ℕ) : ℕ := powModAux 300 b e m

/-- Inverse in the P-256 field via Fermat's little theorem. -/
def p256Inv (x : ℕ) : ℕ := powMod x (p256P - 2) p256P

/-- The affine P-256 group law; `none` is the point at infinity and
finite coordinates are kept reduced mod `p`.  (Additions of `p` and
`p^2` before the truncated subtractions keep every `ℕ` subtraction
non-negative; they vanish mod `p`.) -/
def p256Add : Option (ℕ × ℕ) → Option (ℕ × ℕ) → Option (ℕ × ℕ)
  | none, q => q
  | p, none => p
  | some (x1, y1), some (x2, y2) =>
      if x1 = x2 then
        if (y1 + y2) % p256P = 0 then none
        else
          let l := (3 * x1 * x1 + p256A) % p256P *
            p256Inv (2 * y1 % p256P) % p256P
          let x3 := (l * l + 2 * p256P * p256P - x1 - x2) % p256P
          let y3 := (l * (x1 + p256P - x3) + p256P * p256P - y1) % p256P
          some (x3, y3)
      else
        let l := (y2 + p256P - y1) % p256P *
          p256Inv ((x2 + p256P - x1) % p256P) % p256P
        let x3 := (l * l + 2 * p256P * p256P - x1 - x2) % p256P
        let y3 := (l * (x1 + p256P - x3) + p256P * p256P - y1) % p256P
        some (x3, y3)

/-- Right-to-left double-and-add scalar multiplication; the fuel bounds
the bit length of the scalar. -/
def p256MulAux : ℕ → ℕ → Option (ℕ × ℕ) → Option (ℕ × ℕ) → Option (ℕ × ℕ)
  | 0, _, _, acc => acc
  | fuel + 1, k, base, acc =>
      if k = 0 then acc
      else
        p256MulAux fuel (k / 2) (p256Add base base)
          (if k % 2 = 1 then p256Add acc base else acc)

/-- Go `elliptic.Curve.ScalarMult` on P-256: the affine coordinates of
the scalar multiple, and `(0, 0)` (whose `big.Int.Bytes()` encodings
are empty) for the point at infinity, as Go returns. -/
def p256ScalarMult (x y k : ℕ) : ℕ × ℕ :=
  match p256MulAux 300 k (some (x, y)) none with
  | none => (0, 0)
  | some q => q

/-- The P-256 curve as a `Curve`. -/
def p256Curve : Curve where
  scalarMult := p256ScalarMult

/-! ## Base64url (unpadded), ASCII, and the known-answer inputs of the
reference draft (as in the repository's test table) -/

/-- Value of one base64url alphabet character. -/
def b64UrlVal (c : Char) : Option ℕ :=
  if 'A' ≤ c ∧ c ≤ 'Z' then some (c.toNat - 65)
  else if 'a' ≤ c ∧ c ≤ 'z' then some (c.toNat - 71)
  else if '0' ≤ c ∧ c ≤ '9' then some (c.toNat - 48 + 52)
  else if c = '-' then some 62
  else if c = '_' then some 63
  else none

/-- Reassemble bytes from base64 sextets (raw encoding: trailing groups
of 2 or 3 sextets yield 1 or 2 bytes). -/
def b64Group : List ℕ → List ℕ
  | a :: b :: c :: d :: rest =>
      (a * 4 + b / 16) :: (b % 16 * 16 + c / 4) :: (c % 4 * 64 + d) ::
        b64Group rest
  | [a, b] => [a * 4 + b / 16]
  | [a, b, c] => [a * 4 + b / 16, b % 16 * 16 + c / 4]
  | _ => []

/-- Unpadded base64url decoding (`base64.RawURLEncoding.DecodeString`
on the well-formed inputs used here). -/
def base64UrlDecode (s : String) : Option (List ℕ) :=
  (s.toList.mapM b64UrlVal).map b64Group

/-- ASCII bytes of a string literal. -/
def asciiBytes (s : String) : List ℕ := s.toList.map Char.toNat

/-- Alice's static private scalar `d` (JWK field
`Hndv7ZZjs_ke8o9zXYo3iq-Yr8SewI5vrqd0pAvEPqg`). -/
def aliceStaticD : ℕ :=
  beToNat ((base64UrlDecode
    "Hndv7ZZjs_ke8o9zXYo3iq-Yr8SewI5vrqd0pAvEPqg").getD [])

/-- Alice's ephemeral private scalar `d` (JWK field
`0_NxaRPUMQoAJt50Gz8YiTr8gRTwyEaCumd-MToTmIo`). -/
def aliceEphemeralD : ℕ :=
  beToNat ((base64UrlDecode
    "0_NxaRPUMQoAJt50Gz8YiTr8gRTwyEaCumd-MToTmIo").getD [])

/-- Bob's static public x-coordinate (JWK field
`weNJy2HscCSM6AEDTDg04biOvhFhyyWvOHQfeF_PxMQ`). -/
def bobX : ℕ :=
  beToNat ((base64UrlDecode
    "weNJy2HscCSM6AEDTDg04biOvhFhyyWvOHQfeF_PxMQ").getD [])

/-- Bob's static public y-coordinate (JWK field
`e8lnCO-AlStT-NJVX-crhB7QRYhiix03illJOVAOyck`). -/
def bobY : ℕ :=
  beToNat ((base64UrlDecode
    "e8lnCO-AlStT-NJVX-crhB7QRYhiix03illJOVAOyck").getD [])

/-- Alice's static private key on P-256. -/
def aliceStatic : PrivateKey where
  curve := p256Curve
  d := aliceStaticD

/-- Alice's ephemeral private key on P-256. -/
def aliceEphemeral : PrivateKey where
  curve := p256Curve
  d := aliceEphemeralD

/-- Bob's static public key. -/
def bobPublic : PublicKey where
  x := bobX
  y := bobY

/-- The exchange configuration of the known-answer tests: Alice's
static key, `sha256.New`, the given algorithm identifier and key
length, and party info `"Alice"`. -/
def katExchange (algorithmID : String) (dkLenBits : ℕ) : Ecdh1PuExchange :=
  ECDH1PU (some aliceStatic) (some sha256HashFn) (asciiBytes algorithmID)
    dkLenBits (asciiBytes "Alice")

/-- The raw shared secret `Z = Ze || Zs` of the known-answer inputs
(two 32-byte x-coordinates, neither with a leading zero byte). -/
def katZ : List ℕ :=
  [158, 86, 217, 29, 129, 113, 53, 211, 114, 131, 66, 131, 191, 132, 38, 156,
   251, 49, 110, 163, 218, 128, 106, 72, 246, 218, 167, 121, 140, 254, 144, 196,
   227, 202, 52, 116, 56, 76, 159, 98, 179, 11, 253, 76, 104, 139, 62, 125,
   65, 16, 161, 180, 186, 220, 60, 197, 78, 247, 184, 18, 65, 239, 213, 13]

/-- Expected 128-bit derived key (base64url `AiVWJdYQJPxPu-lJu_OkeA`). -/
def kat128Bytes : List ℕ :=
  [2, 37, 86, 37, 214, 16, 36, 252, 79, 187, 233, 73, 187, 243, 164, 120]

/-- Expected 192-bit derived key (base64url
`IXAgU5hhkaK5wGiPzFcP2ho3qPLjqSAZ`). -/
def kat192Bytes : List ℕ :=
  [33, 112, 32, 83, 152, 97, 145, 162, 185, 192, 104, 143, 204, 87, 15, 218,
   26, 55, 168, 242, 227, 169, 32, 25]

/-- Expected 256-bit derived key (base64url
`bK8Tcj0UhQrUtCzW3ek1v_0v_wCpunDeBcIDpeFyLKc`). -/
def kat256Bytes : List ℕ :=
  [108, 175, 19, 114, 61, 20, 133, 10, 212, 180, 44, 214, 221, 233, 53, 191,
   253, 47, 255, 0, 169, 186, 112, 222, 5, 194, 3, 165, 225, 114, 44, 167]

/-! ## Helper lemmas -/

lemma natToBytesBEAux_zero : ∀ fuel, natToBytesBEAux fuel 0 = []
  | 0 => rfl
  | _ + 1 => by simp [natToBytesBEAux]

lemma beToNat_append_singleton (l : List ℕ) (b : ℕ) :
    beToNat (l ++ [b]) = beToNat l * 256 + b := by
  simp [beToNat, List.foldl_append]

lemma natToBytesBEAux_beToNat :
    ∀ fuel n, n ≤ fuel → beToNat (natToBytesBEAux fuel n) = n
  | 0, n, h => by
      have hn : n = 0 := Nat.le_zero.mp h
      subst hn; rfl
  | fuel + 1, n, h => by
      by_cases hn : n = 0
      · subst hn; simp [natToBytesBEAux, beToNat]
      · have hdiv : n / 256 ≤ fuel := by
          have := Nat.div_lt_self (Nat.pos_of_ne_zero hn)
            (by norm_num : 1 < 256)
          omega
        rw [natToBytesBEAux, if_neg hn, beToNat_append_singleton,
          natToBytesBEAux_beToNat fuel (n / 256) hdiv]
        omega

lemma natToBytesBEAux_head :
    ∀ fuel n, n ≤ fuel → (natToBytesBEAux fuel n).head? ≠ some 0
  | 0, n, h => by
      have hn : n = 0 := Nat.le_zero.mp h
      subst hn; simp [natToBytesBEAux]
  | fuel + 1, n, h => by
      by_cases hn : n = 0
      · subst hn; simp [natToBytesBEAux]
      · rw [natToBytesBEAux, if_neg hn]
        by_cases hsmall : n < 256
        · have h0 : n / 256 = 0 := Nat.div_eq_of_lt hsmall
          rw [h0, natToBytesBEAux_zero]
          have : n % 256 = n := Nat.mod_eq_of_lt hsmall
          simp [this, hn]
        · have hdiv : n / 256 ≤ fuel := by
            have := Nat.div_lt_self (Nat.pos_of_ne_zero hn)
              (by norm_num : 1 < 256)
            omega
          have hd := natToBytesBEAux_head fuel (n / 256) hdiv
          have hne : n / 256 ≠ 0 := by omega
          rcases hl : natToBytesBEAux fuel (n / 256) with _ | ⟨a, t⟩
          · cases fuel with
            | zero => omega
            | succ f =>
                rw [natToBytesBEAux, if_neg hne] at hl
                exact absurd hl (by simp)
          · rw [hl] at hd
            simpa using hd

lemma beToNat_natToBytesBE (n : ℕ) : beToNat (natToBytesBE n) = n :=
  natToBytesBEAux_beToNat n n le_rfl

lemma natToBytesBE_head (n : ℕ) : (natToBytesBE n).head? ≠ some 0 :=
  natToBytesBEAux_head n n le_rfl

lemma toBE4_eq_digits (n : ℕ) :
    toBE4 n = [n / 2 ^ 24 % 256, n / 2 ^ 16 % 256, n / 2 ^ 8 % 256, n % 256] := by
  have h32 : n % 2 ^ 32 / 2 ^ 24 = n / 2 ^ 24 % 2 ^ 8 := by
    have h : (2 : ℕ) ^ 32 = 2 ^ 24 * 2 ^ 8 := by norm_num
    rw [h, Nat.mod_mul_right_div_self]
  have h24 : n % 2 ^ 24 / 2 ^ 16 = n / 2 ^ 16 % 2 ^ 8 := by
    have h : (2 : ℕ) ^ 24 = 2 ^ 16 * 2 ^ 8 := by norm_num
    rw [h, Nat.mod_mul_right_div_self]
  have h16 : n % 2 ^ 16 / 2 ^ 8 = n / 2 ^ 8 % 2 ^ 8 := by
    have h : (2 : ℕ) ^ 16 = 2 ^ 8 * 2 ^ 8 := by norm_num
    rw [h, Nat.mod_mul_right_div_self]
  simp only [toBE4, h32, h24, h16]
  norm_num

lemma lengthPrefixedArray_eq_spec (f : List ℕ) :
    lengthPrefixedArray f = specFieldEncoding f := by
  unfold lengthPrefixedArray specFieldEncoding
  rcases f with _ | ⟨b, t⟩
  · simp
  · simp only [List.length_cons, if_neg (Nat.succ_ne_zero _), toBE4_eq_digits,
      if_neg (List.cons_ne_nil b t)]

lemma kdfRounds_eq_join (h : HashFn) (sharedSecret info : List ℕ) :
    ∀ (n counter : ℕ) (dk : List ℕ),
      kdfRounds h sharedSecret info n counter dk =
        dk ++ ((List.range' counter n).map
          (fun c => h.digest (uint32ToBytes c ++ sharedSecret ++ info))).flatten
  | 0, _, dk => by simp [kdfRounds]
  | n + 1, counter, dk => by
      rw [kdfRounds, kdfRounds_eq_join h sharedSecret info n (counter + 1)]
      simp [List.range'_succ]

/-- With digest size ≥ 1, the ceiling round count is at most `dkLen`. -/
lemma reps_le_dkLen (dkLen size : ℕ) (hsz : 1 ≤ size) :
    (dkLen + size - 1) / size ≤ dkLen := by
  have h1 : dkLen ≤ size * dkLen := Nat.le_mul_of_pos_left dkLen (by omega)
  have h : dkLen + size - 1 < size * (dkLen + 1) := by
    rw [Nat.mul_succ]; omega
  have := Nat.div_lt_of_lt_mul h
  omega

/-- Ceiling division recovers at least the dividend after multiplying
back. -/
lemma le_mul_ceilDiv (a s : ℕ) (hs : 1 ≤ s) :
    a ≤ s * ((a + s - 1) / s) := by
  have h1 := Nat.div_add_mod (a + s - 1) s
  have h2 : (a + s - 1) % s < s := Nat.mod_lt _ (by omega)
  omega

/-- The KDF, on any honest hash (digests of length `size ≥ 1`) and any
output length below `2^32`, succeeds and returns exactly `dkLen`
bytes. -/
lemma nistKdf_ok_length (h : HashFn) (sec info : List ℕ) (dkLen : ℕ)
    (hsz : 1 ≤ h.size) (hhonest : ∀ m, (h.digest m).length = h.size)
    (hdk : dkLen < 2 ^ 32) :
    ∃ dk, nistKdf h sec info dkLen = .ok dk ∧ dk.length = dkLen := by
  have hrep := reps_le_dkLen dkLen h.size hsz
  have hok : nistKdf h sec info dkLen =
      .ok ((kdfRounds h sec info ((dkLen + h.size - 1) / h.size) 1 []).take
        dkLen) := by
    unfold nistKdf
    rw [if_neg (by omega)]
  refine ⟨_, hok, ?_⟩
  rw [kdfRounds_eq_join]
  simp only [List.nil_append, List.length_take, List.length_flatten,
    List.map_map]
  have hmap : ((List.range' 1 ((dkLen + h.size - 1) / h.size)).map
      (List.length ∘ fun c => h.digest (uint32ToBytes c ++ sec ++ info))) =
      (List.range' 1 ((dkLen + h.size - 1) / h.size)).map
        (fun _ => h.size) :=
    List.map_congr_left fun c _ => hhonest _
  rw [hmap, List.map_const', List.sum_replicate, smul_eq_mul,
    List.length_range']
  have := le_mul_ceilDiv dkLen h.size hsz
  have hcomm : (dkLen + h.size - 1) / h.size * h.size =
      h.size * ((dkLen + h.size - 1) / h.size) := Nat.mul_comm _ _
  omega

/-- `SecretKey` with present keys and an honest hash succeeds and
returns `dkLenBits >> 3` bytes (no constraint on `dkLenBits` other than
the `uint32` range). -/
lemma secretKey_ok_length (exchange : Ecdh1PuExchange)
    (sk : PrivateKey) (hf : HashFn) (eph : PrivateKey) (pub : PublicKey)
    (info : List ℕ)
    (hsk : exchange.ourPrivate = some sk) (hh : exchange.h = some hf)
    (hsz : 1 ≤ hf.size) (hhonest : ∀ m, (hf.digest m).length = hf.size)
    (hbits : exchange.dkLenBits < 2 ^ 32) :
    ∃ dk, SecretKey exchange (some eph) (some pub) info = .ok dk ∧
      dk.length = exchange.dkLenBits / 8 := by
  have hdk : exchange.dkLenBits / 2 ^ 3 < 2 ^ 32 :=
    lt_of_le_of_lt (Nat.div_le_self _ _) hbits
  obtain ⟨dk, hok, hlen⟩ := nistKdf_ok_length hf
    (natToBytesBE ((eph.curve.scalarMult pub.x pub.y eph.d).1) ++
      natToBytesBE ((sk.curve.scalarMult pub.x pub.y sk.d).1))
    (buildFixedInfo exchange.algorithmID exchange.partyInfo info
      exchange.dkLenBits)
    (exchange.dkLenBits / 2 ^ 3) hsz hhonest hdk
  refine ⟨dk, ?_, by rw [hlen]; norm_num⟩
  unfold SecretKey computeSharedSecret
  rw [hh, hsk]
  simp only [hok]

/-! ## Claim theorems -/

/-- C3: for every algorithm id, local party-info, remote party-info and
dkLenBits, the fixed-info byte string built by `SecretKey` equals the
spec-side construction: each of the three leading fields contributes zero
bytes when empty and otherwise a 4-byte big-endian length followed by the
field verbatim, concatenated in the fixed order algorithmId,
localPartyInfo, remotePartyInfo, and terminated by an unconditional
plain 4-byte big-endian dkLenBits; the construction is total (never
fails). -/
theorem buildFixedInfo_matches_spec
    (algorithmId localPartyInfo remotePartyInfo : List ℕ) (dkLenBits : ℕ) :
    buildFixedInfo algorithmId localPartyInfo remotePartyInfo dkLenBits =
      specFixedInfo algorithmId localPartyInfo remotePartyInfo dkLenBits := by
  unfold buildFixedInfo specFixedInfo uint32ToBytes
  rw [lengthPrefixedArray_eq_spec, lengthPrefixedArray_eq_spec,
    lengthPrefixedArray_eq_spec, toBE4_eq_digits]

/-- C2: for every hash function with digest size `hashLen ≥ 1`, every
shared secret, every fixed-info string and every requested output length
`dkLen` that does not trigger the round-overflow error, the KDF output
equals the first `dkLen` bytes of the concatenation of the digests
`Hash(BigEndian32(counter) || sharedSecret || fixedInfo)` for `counter`
ranging over `1 .. reps` with `reps = ceil(dkLen / hashLen)`; resetting
the hash state before each round is captured by each round digesting its
full message independently of the other rounds. -/
theorem nistKdf_eq_concat_digests (h : HashFn) (sharedSecret info : List ℕ)
    (dkLen : ℕ) (hsz : 1 ≤ h.size)
    (hhonest : ∀ m, (h.digest m).length = h.size)
    (hrep : (dkLen + h.size - 1) / h.size < 2 ^ 32) :
    nistKdf h sharedSecret info dkLen =
      .ok ((((List.range' 1 ((dkLen + h.size - 1) / h.size)).map
        (fun c => h.digest (uint32ToBytes c ++ sharedSecret ++ info))).flatten).take
          dkLen) := by
  unfold nistKdf
  rw [if_neg (by omega), kdfRounds_eq_join]
  simp

/-- Witness for C2 at a concrete input: `toyHash`, secret `[1]`, info
`[2]`, output length 2. -/
theorem nistKdf_eq_concat_digests_witness :
    1 ≤ toyHash.size ∧
    (∀ m, (toyHash.digest m).length = toyHash.size) ∧
    (2 + toyHash.size - 1) / toyHash.size < 2 ^ 32 ∧
    nistKdf toyHash [1] [2] 2 =
      .ok ((((List.range' 1 ((2 + toyHash.size - 1) / toyHash.size)).map
        (fun c => toyHash.digest (uint32ToBytes c ++ [1] ++ [2]))).flatten).take
          2) :=
  ⟨by decide, fun _ => rfl, by decide,
    nistKdf_eq_concat_digests toyHash [1] [2] 2 (by decide)
      (fun _ => rfl) (by decide)⟩

/-- C7: the KDF fails, with the round-overflow error produced by the
guard that precedes its hashing loop, exactly when the required round
count `reps = ceil(dkLen / hashLen)` exceeds `2^32 - 1`; whenever
`reps ≤ 2^32 - 1` it instead returns an output. -/
theorem nistKdf_overflow_iff (h : HashFn) (sharedSecret info : List ℕ)
    (dkLen : ℕ) (hsz : 1 ≤ h.size) :
    (2 ^ 32 - 1 < (dkLen + h.size - 1) / h.size →
        nistKdf h sharedSecret info dkLen =
          .error "too many round count for KDF") ∧
    ((dkLen + h.size - 1) / h.size ≤ 2 ^ 32 - 1 →
        ∃ out, nistKdf h sharedSecret info dkLen = .ok out) := by
  constructor
  · intro hgt
    unfold nistKdf
    rw [if_pos (by omega)]
  · intro hle
    exact ⟨_, by unfold nistKdf; rw [if_neg (by omega)]⟩

/-- Witness for C7 at concrete inputs: `toyHash` with requested length
`2^33` overflows (round count `2^33 > 2^32 - 1`); with requested
length 3 the KDF succeeds. -/
theorem nistKdf_overflow_iff_witness :
    1 ≤ toyHash.size ∧
    2 ^ 32 - 1 < (2 ^ 33 + toyHash.size - 1) / toyHash.size ∧
    nistKdf toyHash [] [] (2 ^ 33) = .error "too many round count for KDF" ∧
    (3 + toyHash.size - 1) / toyHash.size ≤ 2 ^ 32 - 1 ∧
    ∃ out, nistKdf toyHash [] [] 3 = .ok out :=
  ⟨by decide, by decide,
    (nistKdf_overflow_iff toyHash [] [] (2 ^ 33) (by decide)).1 (by decide),
    by decide,
    (nistKdf_overflow_iff toyHash [] [] 3 (by decide)).2 (by decide)⟩

/-- C9: for every `uint32` output length (`dkLen < 2^32`) and every hash
with digest size at least 1 byte, the required round count is at most
`dkLen < 2^32`, so the overflow branch of `nistKdf` is unreachable and
the KDF always returns an output. -/
theorem nistKdf_never_errors (h : HashFn) (sharedSecret info : List ℕ)
    (dkLen : ℕ) (hdk : dkLen < 2 ^ 32) (hsz : 1 ≤ h.size) :
    ∃ out, nistKdf h sharedSecret info dkLen = .ok out := by
  have hrep := reps_le_dkLen dkLen h.size hsz
  exact ⟨_, by unfold nistKdf; rw [if_neg (by omega)]⟩

/-- Witness for C9 at a concrete input: `toyHash`, output length 5. -/
theorem nistKdf_never_errors_witness :
    5 < 2 ^ 32 ∧ 1 ≤ toyHash.size ∧
      ∃ out, nistKdf toyHash [3] [4] 5 = .ok out :=
  ⟨by decide, by decide,
    nistKdf_never_errors toyHash [3] [4] 5 (by decide) (by decide)⟩

/-- C4: for every non-nil static private key, ephemeral private key and
remote public key, the shared secret is `Z = Ze ++ Zs` where `Ze` and
`Zs` are the x-coordinates of `ScalarMult(remote, ephemeral.D)` and
`ScalarMult(remote, static.D)` respectively, each encoded in
minimal-length big-endian form: the byte string's big-endian value is
the coordinate and it carries no leading zero byte (in particular no
fixed-width zero-padding). -/
theorem computeSharedSecret_concat_minimal (exchange : Ecdh1PuExchange)
    (sk eph : PrivateKey) (pub : PublicKey)
    (hsk : exchange.ourPrivate = some sk) :
    ∃ ze zs,
      computeSharedSecret exchange (some eph) (some pub) = .ok (ze ++ zs) ∧
      beToNat ze = (eph.curve.scalarMult pub.x pub.y eph.d).1 ∧
      beToNat zs = (sk.curve.scalarMult pub.x pub.y sk.d).1 ∧
      ze.head? ≠ some 0 ∧ zs.head? ≠ some 0 := by
  refine ⟨natToBytesBE _, natToBytesBE _, ?_, beToNat_natToBytesBE _,
    beToNat_natToBytesBE _, natToBytesBE_head _, natToBytesBE_head _⟩
  unfold computeSharedSecret
  rw [hsk]

/-- Witness for C4 at a concrete input: `toyExchange` with the toy
ephemeral key and toy public key. -/
theorem computeSharedSecret_concat_minimal_witness :
    toyExchange.ourPrivate = some toyPriv ∧
    ∃ ze zs,
      computeSharedSecret toyExchange (some toyPriv2) (some toyPub) =
        .ok (ze ++ zs) ∧
      beToNat ze = (toyPriv2.curve.scalarMult toyPub.x toyPub.y toyPriv2.d).1 ∧
      beToNat zs = (toyPriv.curve.scalarMult toyPub.x toyPub.y toyPriv.d).1 ∧
      ze.head? ≠ some 0 ∧ zs.head? ≠ some 0 :=
  ⟨rfl, computeSharedSecret_concat_minimal toyExchange toyPriv toyPriv2
    toyPub rfl⟩

/-- C5: for every configured `dkLenBits` that is a positive multiple of
8 (and fits a `uint32`), a present static key, a present honest hash
function and present call arguments, `SecretKey` succeeds and returns
exactly `dkLenBits / 8` bytes. -/
theorem secretKey_length_contract (exchange : Ecdh1PuExchange)
    (sk : PrivateKey) (hf : HashFn) (eph : PrivateKey) (pub : PublicKey)
    (info : List ℕ)
    (hsk : exchange.ourPrivate = some sk) (hh : exchange.h = some hf)
    (hsz : 1 ≤ hf.size) (hhonest : ∀ m, (hf.digest m).length = hf.size)
    (hbits : exchange.dkLenBits < 2 ^ 32)
    (hpos : 0 < exchange.dkLenBits) (hmul : 8 ∣ exchange.dkLenBits) :
    ∃ dk, SecretKey exchange (some eph) (some pub) info = .ok dk ∧
      dk.length = exchange.dkLenBits / 8 :=
  secretKey_ok_length exchange sk hf eph pub info hsk hh hsz hhonest hbits

/-- Witness for C5 at a concrete input: `toyExchange`
(`dkLenBits = 16`). -/
theorem secretKey_length_contract_witness :
    toyExchange.ourPrivate = some toyPriv ∧ toyExchange.h = some toyHash ∧
    1 ≤ toyHash.size ∧ (∀ m, (toyHash.digest m).length = toyHash.size) ∧
    toyExchange.dkLenBits < 2 ^ 32 ∧ 0 < toyExchange.dkLenBits ∧
    8 ∣ toyExchange.dkLenBits ∧
    ∃ dk, SecretKey toyExchange (some toyPriv2) (some toyPub) [] = .ok dk ∧
      dk.length = toyExchange.dkLenBits / 8 :=
  ⟨rfl, rfl, by decide, fun _ => rfl, by decide, by decide, by decide,
    secretKey_length_contract toyExchange toyPriv toyHash toyPriv2 toyPub []
      rfl rfl (by decide) (fun _ => rfl) (by decide) (by decide) (by decide)⟩

/-- C10: for a configured `dkLenBits` that is not a positive multiple of
8 (including `dkLenBits = 0`), `SecretKey` with valid keys and an honest
hash function still succeeds and returns exactly `dkLenBits / 8`
(floor-division) bytes: nothing in the core rejects the invalid
length. -/
theorem secretKey_invalid_dkLenBits (exchange : Ecdh1PuExchange)
    (sk : PrivateKey) (hf : HashFn) (eph : PrivateKey) (pub : PublicKey)
    (info : List ℕ)
    (hsk : exchange.ourPrivate = some sk) (hh : exchange.h = some hf)
    (hsz : 1 ≤ hf.size) (hhonest : ∀ m, (hf.digest m).length = hf.size)
    (hbits : exchange.dkLenBits < 2 ^ 32)
    (hinvalid : ¬(0 < exchange.dkLenBits ∧ 8 ∣ exchange.dkLenBits)) :
    ∃ dk, SecretKey exchange (some eph) (some pub) info = .ok dk ∧
      dk.length = exchange.dkLenBits / 8 :=
  secretKey_ok_length exchange sk hf eph pub info hsk hh hsz hhonest hbits

/-- Witness for C10 at a concrete input: `toyExchangeZero`
(`dkLenBits = 0`), yielding a zero-length derived key. -/
theorem secretKey_invalid_dkLenBits_witness :
    toyExchangeZero.ourPrivate = some toyPriv ∧
    toyExchangeZero.h = some toyHash ∧
    1 ≤ toyHash.size ∧ (∀ m, (toyHash.digest m).length = toyHash.size) ∧
    toyExchangeZero.dkLenBits < 2 ^ 32 ∧
    ¬(0 < toyExchangeZero.dkLenBits ∧ 8 ∣ toyExchangeZero.dkLenBits) ∧
    ∃ dk, SecretKey toyExchangeZero (some toyPriv2) (some toyPub) [] =
        .ok dk ∧
      dk.length = toyExchangeZero.dkLenBits / 8 :=
  ⟨rfl, rfl, by decide, fun _ => rfl, by decide, by decide,
    secretKey_invalid_dkLenBits toyExchangeZero toyPriv toyHash toyPriv2
      toyPub [] rfl rfl (by decide) (fun _ => rfl) (by decide) (by decide)⟩

/-- C6: each missing input independently makes `SecretKey` return an
error with no output: a nil ephemeral key (regardless of the other
arguments — its check runs first, before any cryptographic work), a nil
remote public key, a nil hash function, and a nil configured static
private key, the last detected inside the shared-secret step, whose
error `SecretKey` returns as its own result. -/
theorem secretKey_missing_inputs (exchange : Ecdh1PuExchange)
    (eph : PrivateKey) (pub : PublicKey) (info : List ℕ) :
    SecretKey exchange none (some pub) info =
      .error "ephemeral private key is mandatory" ∧
    SecretKey exchange none none info =
      .error "ephemeral private key is mandatory" ∧
    SecretKey exchange (some eph) none info =
      .error "their public key is mandatory" ∧
    (exchange.h = none →
      SecretKey exchange (some eph) (some pub) info =
        .error "hash function is mandatory") ∧
    (exchange.ourPrivate = none → ∀ hf, exchange.h = some hf →
      computeSharedSecret exchange (some eph) (some pub) =
        .error "unable to process with nil private key" ∧
      SecretKey exchange (some eph) (some pub) info =
        computeSharedSecret exchange (some eph) (some pub)) := by
  refine ⟨rfl, rfl, rfl, ?_, ?_⟩
  · intro hnone
    simp [SecretKey, hnone]
  · intro hstat hf hh
    have hcss : computeSharedSecret exchange (some eph) (some pub) =
        .error "unable to process with nil private key" := by
      simp [computeSharedSecret, hstat]
    exact ⟨hcss, by simp [SecretKey, hh, hcss]⟩

/-- Witness for C6 at concrete inputs: the no-hash and no-static-key
exchanges. -/
theorem secretKey_missing_inputs_witness :
    SecretKey toyExchangeNoHash (some toyPriv2) (some toyPub) [] =
      .error "hash function is mandatory" ∧
    (computeSharedSecret toyExchangeNoStatic (some toyPriv2) (some toyPub) =
        .error "unable to process with nil private key" ∧
      SecretKey toyExchangeNoStatic (some toyPriv2) (some toyPub) [] =
        computeSharedSecret toyExchangeNoStatic (some toyPriv2)
          (some toyPub)) :=
  ⟨(secretKey_missing_inputs toyExchangeNoHash toyPriv2 toyPub []).2.2.2.1
      rfl,
    (secretKey_missing_inputs toyExchangeNoStatic toyPriv2 toyPub []).2.2.2.2
      rfl toyHash rfl⟩

/-- C8 counterexample: with a nil configured static key (and all other
inputs present) the shared-secret step fails, and `SecretKey` returns
that step's error byte-for-byte unchanged — no wrapping context
identifying the failed step is added, contrary to the claim that errors
from either step are propagated wrapped with such context. -/
theorem secretKey_error_unwrapped_counterexample :
    computeSharedSecret toyExchangeNoStatic (some toyPriv2) (some toyPub) =
      .error "unable to process with nil private key" ∧
    SecretKey toyExchangeNoStatic (some toyPriv2) (some toyPub) [] =
      .error "unable to process with nil private key" :=
  ⟨rfl, rfl⟩

/-- C8 amended: whenever the shared-secret step errors, `SecretKey`
propagates that error verbatim (unwrapped); whenever the KDF step
errors, `SecretKey` propagates it wrapped with the context
`"unable to apply kdf: "`; in both cases no output is returned. -/
theorem secretKey_error_propagation (exchange : Ecdh1PuExchange)
    (eph : PrivateKey) (pub : PublicKey) (info : List ℕ) (hf : HashFn)
    (hh : exchange.h = some hf) :
    (∀ e, computeSharedSecret exchange (some eph) (some pub) = .error e →
      SecretKey exchange (some eph) (some pub) info = .error e) ∧
    (∀ sec e, computeSharedSecret exchange (some eph) (some pub) = .ok sec →
      nistKdf hf sec (buildFixedInfo exchange.algorithmID exchange.partyInfo
        info exchange.dkLenBits) (exchange.dkLenBits / 2 ^ 3) = .error e →
      SecretKey exchange (some eph) (some pub) info =
        .error ("unable to apply kdf: " ++ e)) := by
  constructor
  · intro e he
    simp [SecretKey, hh, he]
  · intro sec e hsec hkdf
    have h8 : exchange.dkLenBits / 2 ^ 3 = exchange.dkLenBits / 8 := by
      norm_num
    rw [h8] at hkdf
    simp [SecretKey, hh, hsec, hkdf]

/-- Witness for the amended C8 at concrete inputs: the nil-static
exchange exercises the verbatim propagation of a shared-secret error,
and the huge-`dkLenBits` exchange exercises the wrapped propagation of
a KDF error. -/
theorem secretKey_error_propagation_witness :
    toyExchangeNoStatic.h = some toyHash ∧
    SecretKey toyExchangeNoStatic (some toyPriv2) (some toyPub) [] =
      .error "unable to process with nil private key" ∧
    toyExchangeHuge.h = some toyHash ∧
    SecretKey toyExchangeHuge (some toyPriv2) (some toyPub) [] =
      .error ("unable to apply kdf: " ++ "too many round count for KDF") :=
  ⟨rfl,
    (secretKey_error_propagation toyExchangeNoStatic toyPriv2 toyPub []
      toyHash rfl).1 _ rfl,
    rfl,
    (secretKey_error_propagation toyExchangeHuge toyPriv2 toyPub []
      toyHash rfl).2 _ _ rfl rfl⟩

/-- The shared-secret computation of the known-answer inputs evaluates
to `katZ`, independently of the configured algorithm id and key length
(proved once by evaluation and reused for the three vectors). -/
lemma kat_sharedSecret (algorithmID : String) (dkLenBits : ℕ) :
    computeSharedSecret (katExchange algorithmID dkLenBits)
      (some aliceEphemeral) (some bobPublic) = .ok katZ := by
  rfl

/-- C1: on the known-answer inputs (SHA-256, P-256, the draft's static
and ephemeral private scalars and remote public point, algorithm ids
`A128GCM`/`A192GCM`/`A256GCM` with `dkLenBits` 128/192/256, party infos
`Alice` and `Bob`), `SecretKey` succeeds and returns exactly the bytes
that base64url-decode from `AiVWJdYQJPxPu-lJu_OkeA`,
`IXAgU5hhkaK5wGiPzFcP2ho3qPLjqSAZ` and
`bK8Tcj0UhQrUtCzW3ek1v_0v_wCpunDeBcIDpeFyLKc` respectively. -/
theorem secretKey_known_answer_vectors :
    (base64UrlDecode "AiVWJdYQJPxPu-lJu_OkeA" = some kat128Bytes ∧
      SecretKey (katExchange "A128GCM" 128) (some aliceEphemeral)
        (some bobPublic) (asciiBytes "Bob") = .ok kat128Bytes) ∧
    (base64UrlDecode "IXAgU5hhkaK5wGiPzFcP2ho3qPLjqSAZ" = some kat192Bytes ∧
      SecretKey (katExchange "A192GCM" 192) (some aliceEphemeral)
        (some bobPublic) (asciiBytes "Bob") = .ok kat192Bytes) ∧
    (base64UrlDecode "bK8Tcj0UhQrUtCzW3ek1v_0v_wCpunDeBcIDpeFyLKc" =
        some kat256Bytes ∧
      SecretKey (katExchange "A256GCM" 256) (some aliceEphemeral)
        (some bobPublic) (asciiBytes "Bob") = .ok kat256Bytes) := by
  refine ⟨⟨by rfl, ?_⟩, ⟨by rfl, ?_⟩, ⟨by rfl, ?_⟩⟩ <;>
    (unfold SecretKey; rw [kat_sharedSecret]; rfl)

end Exchange
